import Mathlib

/-! Functional-programming bootcamp: map / filter / reduce and closures.

A shallow embedding of `codes/day3/main.go` (generic `Map`, `Filter`, `Reduce`,
`imperaticeStyle`, `functionalStyle`) and of `codes/day2/main.go`
(`getMultiplier`, `add`, `curriedAdd`, `compose`, `measureTime`).

Modelling conventions

* Go's `int` is the 64-bit two's-complement integer.  A value is an `Int`; every
  arithmetic operation of the source is followed by `wrapInt`, which reduces the
  mathematical result modulo `2^64` into `[-2^63, 2^63)`.
* A Go slice is a `Slice T`: either the nil slice (the zero value of `[]T`, what
  `var result []T` declares) or an allocated slice holding a list of elements.
  Both have a length and can be ranged over; only the first is `== nil`.
* The zero value of a type `B` (what `make([]B, n)` fills the slice with) is
  `default` of an `Inhabited B` instance.
* An indexed store `result[i] = v` fails (run-time panic) when `i` is out of
  range; it is modelled as a function into `Option`.
* A `for ... range` loop is a structural recursion over the elements of the
  ranged slice, carrying the loop's variables.
* A transform that may fail is a function into `Except`; its failure leaves
  `Map` at once, as a Go panic does in a function without `recover`.
* Where the identity of a variable matters (the closure of `getMultiplier`),
  variables are cells of an explicit `Store` and a function value holds the
  variable it captured.
* Clock readings and printing are actions appended to the trace of a `World`;
  a callback is run on the same control flow and returns.
-/

namespace Bootcamp

/-! ## Machine integers -/

/-- Reduction of a mathematical integer to Go's 64-bit `int`:
the representative of `x` modulo `2^64` in `[-2^63, 2^63)`. -/
def wrapInt (x : Int) : Int :=
  (x + 9223372036854775808) % 18446744073709551616 - 9223372036854775808

/-- Go's `a + b` on `int`. -/
def addInt (a b : Int) : Int := wrapInt (a + b)

/-- Go's `a * b` on `int`. -/
def mulInt (a b : Int) : Int := wrapInt (a * b)

/-- Go's `a % b` on `int`: the remainder of the division truncated toward zero
(its sign follows the dividend). -/
def remInt (a b : Int) : Int := Int.tmod a b

/-! ## Slices -/

/-- A Go slice value of element type `T`. -/
inductive Slice (T : Type) where
  /-- The nil slice, zero value of `[]T`. -/
  | nil : Slice T
  /-- An allocated (non-nil) slice with the given elements, possibly none. -/
  | alloc (elems : List T) : Slice T
deriving DecidableEq, Repr

namespace Slice

variable {T : Type}

/-- The elements of a slice in index order (what `range` visits). -/
def toList : Slice T → List T
  | nil => []
  | alloc elems => elems

/-- Go's `len(s)`. -/
def len (s : Slice T) : Nat := s.toList.length

/-- Go's `s == nil`. -/
def isNil : Slice T → Bool
  | nil => true
  | alloc _ => false

/-- Go's `make([]T, n)`: a non-nil slice of `n` zero values. -/
def make [Inhabited T] (n : Nat) : Slice T := alloc (List.replicate n default)

/-- Go's `append(s, item)`: always a non-nil slice, the elements of `s`
followed by `item`. -/
def append (s : Slice T) (item : T) : Slice T := alloc (s.toList ++ [item])

/-- Go's indexed store `s[i] = v`; `none` is the index-out-of-range panic. -/
def store (s : Slice T) (i : Nat) (v : T) : Option (Slice T) :=
  if i < s.len then some (alloc (s.toList.set i v)) else none

/-- Go's indexed read `s[i]`; `none` is the index-out-of-range panic. -/
def index (s : Slice T) (i : Nat) : Option T := s.toList[i]?

end Slice

/-! ## `codes/day3/main.go` -/

/-- The loop `for i, item := range collection { result[i] = f(item) }` of `Map`,
from index `i` on, with the remaining elements of `collection`. -/
def Map.loop {A B : Type} (f : A → B) : List A → Nat → Slice B → Option (Slice B)
  | [], _, result => some result
  | item :: rest, i, result =>
    match result.store i (f item) with
    | none => none
    | some result1 => Map.loop f rest (i + 1) result1

/-- Go `Map`: `result := make([]B, len(collection))`, the loop, `return result`. -/
def Map {A B : Type} [Inhabited B] (collection : Slice A) (f : A → B) : Option (Slice B) :=
  Map.loop f collection.toList 0 (Slice.make collection.len)

/-- The loop `for _, item := range collection { if predicate(item) { result =
append(result, item) } }` of `Filter`. -/
def Filter.loop {T : Type} (predicate : T → Bool) : List T → Slice T → Slice T
  | [], result => result
  | item :: rest, result =>
    if predicate item then Filter.loop predicate rest (result.append item)
    else Filter.loop predicate rest result

/-- Go `Filter`: `var result []T`, the loop, `return result`. -/
def Filter {T : Type} (collection : Slice T) (predicate : T → Bool) : Slice T :=
  Filter.loop predicate collection.toList Slice.nil

/-- The loop `for _, item := range collection { result = accumulator(result, item) }`
of `Reduce`. -/
def Reduce.loop {A B : Type} (accumulator : B → A → B) : List A → B → B
  | [], result => result
  | item :: rest, result => Reduce.loop accumulator rest (accumulator result item)

/-- Go `Reduce`: `result := initialValue`, the loop, `return result`. -/
def Reduce {A B : Type} (collection : Slice A) (initialValue : B) (accumulator : B → A → B) : B :=
  Reduce.loop accumulator collection.toList initialValue

/-- The loop of `imperaticeStyle`: `if n%2 == 0 { square := n * n; sum += square }`. -/
def imperaticeStyle.loop : List Int → Int → Int
  | [], sum => sum
  | n :: rest, sum =>
    if remInt n 2 = 0 then imperaticeStyle.loop rest (addInt sum (mulInt n n))
    else imperaticeStyle.loop rest sum

/-- Go `imperaticeStyle`: `var sum int`, the loop, `return sum`. -/
def imperaticeStyle (numbers : Slice Int) : Int :=
  imperaticeStyle.loop numbers.toList 0

/-- Go `functionalStyle`: `Filter` the evens, `Map` them to their squares,
`Reduce` the squares by addition from `0`.  `none` would be a panic inside `Map`. -/
def functionalStyle (numbers : Slice Int) : Option Int :=
  let evens := Filter numbers (fun n => decide (remInt n 2 = 0))
  match Map evens (fun n => mulInt n n) with
  | none => none
  | some squares => some (Reduce squares 0 (fun acc n => addInt acc n))

/-! ## `codes/day2/main.go` -/

/-- Go `getMultiplier`: the closure `func(n int) int { return fector * n }`. -/
def getMultiplier (fector : Int) : Int → Int :=
  fun n => mulInt fector n

/-- Go `add`. -/
def add (a b : Int) : Int := addInt a b

/-- Go `curriedAdd`: the closure `func(b int) int { return a+b }`. -/
def curriedAdd (a : Int) : Int → Int :=
  fun b => addInt a b

/-- Go `compose`: the closure `func(x int) int { return g(f(x)) }`. -/
def compose (f g : Int → Int) : Int → Int :=
  fun x => g (f x)

/-- The slice literal `[]int{1,2,3,4,5,6,7,8,9}` of `main` in `day3`. -/
def collection : Slice Int := Slice.alloc [1, 2, 3, 4, 5, 6, 7, 8, 9]

/-! ## Specification-side definitions -/

/-- The accumulator sequence in the words of the specification:
`acc₀ = initial`, `acc_{i+1} = combine(acc_i, item_i)`; past the last item the
accumulator no longer changes. -/
def foldAcc {A B : Type} (items : List A) (initial : B) (combine : B → A → B) : Nat → B
  | 0 => initial
  | i + 1 =>
    match items[i]? with
    | some item => combine (foldAcc items initial combine i) item
    | none => foldAcc items initial combine i

/-- The mathematical sum of `n * n` over the even elements `n` of a list of
integers (no wrapping). -/
def sumSquaresOfEvens (numbers : List Int) : Int :=
  ((numbers.filter (fun n => decide (Even n))).map (fun n => n * n)).sum

/-! ## `Map` with a transform that may fail -/

/-- A run-time fault that ends `Map` early: the panic value `e` raised by the
transform, or the index-out-of-range panic of `result[i] = ...`. -/
inductive Fault (E : Type) where
  | transform (e : E) : Fault E
  | indexOutOfRange : Fault E
deriving DecidableEq, Repr

/-- The loop of `Map` when `f` may fail: in `result[i] = f(item)` the call
`f(item)` is evaluated first and its failure leaves `Map` at once (there is no
`recover`); only then is the store carried out. -/
def MapFallible.loop {A B E : Type} (f : A → Except E B) :
    List A → Nat → Slice B → Except (Fault E) (Slice B)
  | [], _, result => Except.ok result
  | item :: rest, i, result =>
    match f item with
    | Except.error e => Except.error (Fault.transform e)
    | Except.ok v =>
      match result.store i v with
      | none => Except.error Fault.indexOutOfRange
      | some result1 => MapFallible.loop f rest (i + 1) result1

/-- Go `Map` with a transform that may fail. -/
def MapFallible {A B E : Type} [Inhabited B] (collection : Slice A) (f : A → Except E B) :
    Except (Fault E) (Slice B) :=
  MapFallible.loop f collection.toList 0 (Slice.make collection.len)

/-- The failure of `f` on the first item, in sequence order, on which it fails. -/
def firstFailure {A B E : Type} (f : A → Except E B) : List A → Option E
  | [] => none
  | item :: rest =>
    match f item with
    | Except.error e => some e
    | Except.ok _ => firstFailure f rest

/-- The results of `f` on the items on which it succeeds. -/
def okValues {A B E : Type} (f : A → Except E B) : List A → List B
  | [] => []
  | item :: rest =>
    match f item with
    | Except.error _ => okValues f rest
    | Except.ok v => v :: okValues f rest

/-! ## Variables and the closure of `getMultiplier` -/

/-- A store of Go `int` variables; a variable is the position of its cell. -/
structure Store where
  cells : List Int
deriving DecidableEq, Repr

/-- Declaration of a new variable initialised with `v`: the new store and the
variable. -/
def Store.declare (σ : Store) (v : Int) : Store × Nat :=
  (⟨σ.cells ++ [v]⟩, σ.cells.length)

/-- Reading variable `x`. -/
def Store.read (σ : Store) (x : Nat) : Option Int := σ.cells[x]?

/-- The assignment `x = v` to an existing variable. -/
def Store.assign (σ : Store) (x : Nat) (v : Int) : Store := ⟨σ.cells.set x v⟩

/-- The function value `func(n int) int { return fector * n }`: the code is
fixed, the value holds the captured variable `fector`. -/
structure Multiplier where
  fector : Nat
deriving DecidableEq, Repr

/-- Go `getMultiplier` over a store: the parameter `fector` is a new variable
initialised with the value of the argument, and the returned function value
captures that variable. -/
def getMultiplier.call (σ : Store) (arg : Int) : Store × Multiplier :=
  let r := σ.declare arg
  (r.1, ⟨r.2⟩)

/-- A call of the returned function value: `return fector * n`, reading the
captured variable. -/
def Multiplier.apply (m : Multiplier) (σ : Store) (n : Int) : Option Int :=
  match σ.read m.fector with
  | none => none
  | some fector => some (mulInt fector n)

/-! ## Effects and `measureTime` -/

/-- An observable action of the `day2` program. -/
inductive Effect where
  /-- A call of `time.Now()`. -/
  | timeNow : Effect
  /-- A call of `time.Since(start)`. -/
  | timeSince : Effect
  /-- A call of `fmt.Println(line)`. -/
  | println (line : String) : Effect
  /-- A call of `fmt.Printf(format, duration)`. -/
  | printf (format : String) (duration : Nat) : Effect
  /-- A call of `time.Sleep(duration)`. -/
  | sleep (duration : Nat) : Effect
deriving DecidableEq, Repr

/-- The world a `day2` function runs in: the wall clock (nanoseconds) and the
actions performed so far, oldest first. -/
structure World where
  clock : Nat
  trace : List Effect
deriving DecidableEq, Repr

/-- A Go `func()` value run on the sequential control flow: from the clock at
entry, the actions it performs and the time it takes.  It can add to the
trace and advance the clock, nothing else. -/
structure Callback where
  effects : Nat → List Effect
  elapsed : Nat → Nat

/-- The call `f()`. -/
def Callback.invoke (f : Callback) (w : World) : World :=
  ⟨w.clock + f.elapsed w.clock, w.trace ++ f.effects w.clock⟩

/-- Go `measureTime`: `start := time.Now()`, `f()`, `duration := time.Since(start)`,
`fmt.Printf("Work took: %v\n", duration)`. -/
def measureTime (f : Callback) (w : World) : World :=
  let start := w.clock
  let w1 : World := ⟨w.clock, w.trace ++ [Effect.timeNow]⟩
  let w2 := f.invoke w1
  let duration := w2.clock - start
  let w3 : World := ⟨w2.clock, w2.trace ++ [Effect.timeSince]⟩
  ⟨w3.clock, w3.trace ++ [Effect.printf "Work took: %v\n" duration]⟩

/-- The callback `main` passes to `measureTime`: it prints one line and sleeps
one second; `overhead` is the time it takes beyond the sleep. -/
def mainCallback (overhead : Nat) : Callback :=
  ⟨fun _ => [Effect.println "Do business logic with High-Order Function",
             Effect.sleep 1000000000],
   fun _ => 1000000000 + overhead⟩

/-! ## Lemmas on machine integers -/

theorem wrapInt_lower (x : Int) : -9223372036854775808 ≤ wrapInt x := by
  unfold wrapInt; omega

theorem wrapInt_upper (x : Int) : wrapInt x < 9223372036854775808 := by
  unfold wrapInt; omega

theorem wrapInt_congr (x : Int) : (wrapInt x - x) % 18446744073709551616 = 0 := by
  unfold wrapInt; omega

theorem wrapInt_of_inRange (x : Int) (hlo : -9223372036854775808 ≤ x)
    (hhi : x < 9223372036854775808) : wrapInt x = x := by
  unfold wrapInt; omega

theorem wrapInt_add_wrapInt (a b : Int) : wrapInt (wrapInt a + wrapInt b) = wrapInt (a + b) := by
  unfold wrapInt; omega

theorem remInt_two_eq_zero_iff (n : Int) : remInt n 2 = 0 ↔ Even n := by
  unfold remInt
  rw [← Int.dvd_iff_tmod_eq_zero, even_iff_two_dvd]

/-! ## Lemmas on the loops -/

section Loops

variable {A B T : Type}

theorem Slice.toList_nil : (Slice.nil : Slice T).toList = [] := rfl

theorem Slice.toList_alloc (elems : List T) : (Slice.alloc elems).toList = elems := rfl

theorem Slice.toList_append (s : Slice T) (item : T) :
    (s.append item).toList = s.toList ++ [item] := rfl

theorem Slice.len_alloc (elems : List T) : (Slice.alloc elems).len = elems.length := rfl

theorem Slice.store_alloc_append (done : List T) (old : T) (junk : List T) (v : T) :
    (Slice.alloc (done ++ old :: junk)).store done.length v
      = some (Slice.alloc ((done ++ [v]) ++ junk)) := by
  simp [Slice.store, Slice.len_alloc, Slice.toList_alloc]

/-- The loop of `Map`, started at index `done.length` on a result slice whose
first `done.length` cells are `done` and which has exactly one further cell per
remaining item, never panics and overwrites those cells with the images. -/
theorem Map_loop_eq (f : A → B) (rest : List A) :
    ∀ (done junk : List B), junk.length = rest.length →
      Map.loop f rest done.length (Slice.alloc (done ++ junk))
        = some (Slice.alloc (done ++ rest.map f)) := by
  induction rest with
  | nil =>
    intro done junk h
    have hj : junk = [] := List.length_eq_zero.mp h
    simp [Map.loop, hj]
  | cons item rest ih =>
    intro done junk h
    cases junk with
    | nil => simp at h
    | cons old junk =>
      have hlen : junk.length = rest.length := by simpa using h
      have hstep := ih (done ++ [f item]) junk hlen
      simp only [List.length_append, List.length_singleton] at hstep
      simp only [Map.loop, Slice.store_alloc_append, hstep]
      simp

/-- `Map` always returns, and returns the allocated slice of the images. -/
theorem Map_eq [Inhabited B] (xs : Slice A) (f : A → B) :
    Map xs f = some (Slice.alloc (xs.toList.map f)) := by
  have h := Map_loop_eq f xs.toList [] (List.replicate xs.len default) (by simp [Slice.len])
  simpa [Map, Slice.make] using h

theorem Filter_loop_toList (p : T → Bool) (l : List T) :
    ∀ result : Slice T, (Filter.loop p l result).toList = result.toList ++ l.filter p := by
  induction l with
  | nil => intro result; simp [Filter.loop]
  | cons item rest ih =>
    intro result
    by_cases h : p item = true
    · simp [Filter.loop, h, ih, Slice.toList_append]
    · simp [Filter.loop, h, ih]

theorem Filter_toList (xs : Slice T) (p : T → Bool) :
    (Filter xs p).toList = xs.toList.filter p := by
  simp [Filter, Filter_loop_toList, Slice.toList_nil]

/-- When no item satisfies the predicate the loop of `Filter` never assigns
`result`. -/
theorem Filter_loop_none (p : T → Bool) (l : List T) (h : ∀ x ∈ l, p x = false) :
    ∀ result : Slice T, Filter.loop p l result = result := by
  induction l with
  | nil => intro result; rfl
  | cons item rest ih =>
    intro result
    have h1 : p item = false := h item (List.mem_cons_self _ _)
    have h2 : ∀ x ∈ rest, p x = false := fun x hx => h x (List.mem_cons_of_mem _ hx)
    simp [Filter.loop, h1, ih h2]

theorem Reduce_loop_eq_foldl (c : B → A → B) (l : List A) :
    ∀ z : B, Reduce.loop c l z = l.foldl c z := by
  induction l with
  | nil => intro z; rfl
  | cons item rest ih => intro z; simp [Reduce.loop, ih]

theorem foldAcc_eq_foldl_take (c : B → A → B) (l : List A) (z : B) :
    ∀ i : Nat, foldAcc l z c i = (l.take i).foldl c z := by
  intro i
  induction i with
  | zero => simp [foldAcc]
  | succ i ih =>
    rw [List.take_succ, foldAcc, ih]
    cases h : l[i]? with
    | none => simp
    | some item => simp

end Loops

/-! ## Lemmas on the two sum-of-squares programs -/

theorem sumSquaresOfEvens_nil : sumSquaresOfEvens [] = 0 := rfl

theorem sumSquaresOfEvens_cons_even (n : Int) (rest : List Int) (h : Even n) :
    sumSquaresOfEvens (n :: rest) = n * n + sumSquaresOfEvens rest := by
  simp [sumSquaresOfEvens, h]

theorem sumSquaresOfEvens_cons_odd (n : Int) (rest : List Int) (h : ¬ Even n) :
    sumSquaresOfEvens (n :: rest) = sumSquaresOfEvens rest := by
  simp [sumSquaresOfEvens, h]

/-- The loop of `imperaticeStyle`, entered with a sum that is the wrapping of
`s`, leaves the wrapping of `s` plus the sum of the squares of the evens. -/
theorem imperaticeStyle_loop_eq (l : List Int) :
    ∀ s : Int, imperaticeStyle.loop l (wrapInt s) = wrapInt (s + sumSquaresOfEvens l) := by
  induction l with
  | nil => intro s; simp [imperaticeStyle.loop, sumSquaresOfEvens_nil]
  | cons n rest ih =>
    intro s
    by_cases h : Even n
    · have hr : remInt n 2 = 0 := (remInt_two_eq_zero_iff n).mpr h
      simp only [imperaticeStyle.loop, hr, if_true, addInt, mulInt, wrapInt_add_wrapInt, ih,
        sumSquaresOfEvens_cons_even n rest h, add_assoc]
    · have hr : ¬ remInt n 2 = 0 := fun hc => h ((remInt_two_eq_zero_iff n).mp hc)
      simp only [imperaticeStyle.loop, hr, if_false, ih, sumSquaresOfEvens_cons_odd n rest h]

/-- Adding up wrapped squares with wrapping addition, from the wrapping of `s`. -/
theorem Reduce_loop_squares (l : List Int) :
    ∀ s : Int, Reduce.loop (fun acc n => addInt acc n) (l.map (fun n => mulInt n n)) (wrapInt s)
      = wrapInt (s + (l.map (fun n => n * n)).sum) := by
  induction l with
  | nil => intro s; simp [Reduce.loop]
  | cons n rest ih =>
    intro s
    have hstep : addInt (wrapInt s) (mulInt n n) = wrapInt (s + n * n) := by
      simp only [addInt, mulInt, wrapInt_add_wrapInt]
    simp only [List.map_cons, Reduce.loop, List.sum_cons]
    rw [hstep, ih, add_assoc]

theorem wrapInt_zero : wrapInt 0 = 0 := by decide

theorem imperaticeStyle_eq (numbers : Slice Int) :
    imperaticeStyle numbers = wrapInt (sumSquaresOfEvens numbers.toList) := by
  have h := imperaticeStyle_loop_eq numbers.toList 0
  rw [wrapInt_zero, zero_add] at h
  exact h

theorem functionalStyle_eq (numbers : Slice Int) :
    functionalStyle numbers = some (wrapInt (sumSquaresOfEvens numbers.toList)) := by
  have hf : (fun n : Int => decide (remInt n 2 = 0)) = (fun n : Int => decide (Even n)) := by
    funext n
    exact decide_eq_decide.mpr (remInt_two_eq_zero_iff n)
  have h := Reduce_loop_squares (numbers.toList.filter (fun n => decide (Even n))) 0
  rw [wrapInt_zero, zero_add] at h
  simp only [functionalStyle, Map_eq, Filter_toList, Reduce, Slice.toList_alloc, hf, h,
    sumSquaresOfEvens]

/-! ## The generic collection helpers -/

/-- C1: for every slice `xs` and function `f`, `Map(xs, f)` returns a slice of the
same length as `xs` whose element at every index `i < len(xs)` is `f(xs[i])`. -/
theorem Map_length_and_elements {A B : Type} [Inhabited B] (xs : Slice A) (f : A → B) :
    ∃ r : Slice B, Map xs f = some r ∧ r.len = xs.len ∧
      ∀ (i : Nat) (h : i < xs.len), r.index i = some (f (xs.toList.get ⟨i, h⟩)) := by
  refine ⟨Slice.alloc (xs.toList.map f), Map_eq xs f, ?_, ?_⟩
  · simp [Slice.len, Slice.toList_alloc]
  · intro i h
    have hi : i < xs.toList.length := h
    simp [Slice.index, Slice.toList_alloc, List.getElem?_eq_getElem hi]

/-- Instance of C1 at `xs = [1, 2, 3]`, `f = square`, index `1`. -/
theorem Map_length_and_elements_witness :
    1 < (Slice.alloc [1, 2, 3] : Slice Int).len ∧
      ∃ r : Slice Int, Map (Slice.alloc [1, 2, 3]) (fun n => mulInt n n) = some r ∧
        r.len = 3 ∧ r.index 1 = some 4 := by
  refine ⟨by decide, ?_⟩
  obtain ⟨r, h1, h2, h3⟩ :=
    Map_length_and_elements (Slice.alloc [1, 2, 3] : Slice Int) (fun n => mulInt n n)
  exact ⟨r, h1, h2, h3 1 (by decide)⟩

/-- C2: every element of `Filter(xs, p)` satisfies `p`, and `Filter(xs, p)` is a
subsequence of `xs` (same relative order). -/
theorem Filter_satisfies_and_subsequence {T : Type} (xs : Slice T) (p : T → Bool) :
    (∀ x ∈ (Filter xs p).toList, p x = true) ∧
      List.Sublist (Filter xs p).toList xs.toList := by
  rw [Filter_toList]
  exact ⟨fun x hx => (List.mem_filter.mp hx).2, List.filter_sublist _⟩

/-- Instance of C2 at `xs = [1, 2, 3, 4]`, `p = is even`, element `4`. -/
theorem Filter_satisfies_and_subsequence_witness :
    (4 : Int) ∈ (Filter (Slice.alloc [1, 2, 3, 4]) (fun n => decide (remInt n 2 = 0))).toList ∧
      decide (remInt 4 2 = 0) = true ∧
      List.Sublist (Filter (Slice.alloc [1, 2, 3, 4]) (fun n => decide (remInt n 2 = 0))).toList
        [1, 2, 3, 4] :=
  ⟨by decide,
   (Filter_satisfies_and_subsequence (Slice.alloc [1, 2, 3, 4])
      (fun n => decide (remInt n 2 = 0))).1 4 (by decide),
   (Filter_satisfies_and_subsequence (Slice.alloc [1, 2, 3, 4])
      (fun n => decide (remInt n 2 = 0))).2⟩

/-- C3: `Reduce(xs, z, c)` is the left fold `acc₀ = z`, `acc_{i+1} = c(acc_i, xs[i])`
taken to `acc_{len(xs)}`; on an empty slice (nil or allocated) it returns `z`. -/
theorem Reduce_eq_left_fold {A B : Type} (xs : Slice A) (z : B) (c : B → A → B) :
    Reduce xs z c = foldAcc xs.toList z c xs.len ∧
      Reduce (Slice.nil : Slice A) z c = z ∧ Reduce (Slice.alloc ([] : List A)) z c = z := by
  refine ⟨?_, rfl, rfl⟩
  rw [Reduce, Reduce_loop_eq_foldl, foldAcc_eq_foldl_take, Slice.len, List.take_length]

/-! ## Closures of `day2` -/

/-- C4: `compose(f, g)(x) = g(f(x))`: `f` is applied first, then `g`. -/
theorem compose_apply (f g : Int → Int) (x : Int) : compose f g x = g (f x) := rfl

/-- C5: for all `a`, `b`, `curriedAdd(a)(b) = add(a, b)`, both being the 64-bit wrapping
sum (in `[-2^63, 2^63)` and congruent to `a + b` modulo `2^64`); at `3`, `4` both give `7`. -/
theorem curriedAdd_eq_add :
    (∀ a b : Int, curriedAdd a b = add a b ∧
        (add a b - (a + b)) % 18446744073709551616 = 0 ∧
        -9223372036854775808 ≤ add a b ∧ add a b < 9223372036854775808) ∧
      curriedAdd 3 4 = 7 ∧ add 3 4 = 7 := by
  refine ⟨fun a b => ⟨rfl, ?_, ?_, ?_⟩, by decide, by decide⟩
  · exact wrapInt_congr (a + b)
  · exact wrapInt_lower (a + b)
  · exact wrapInt_upper (a + b)

/-- C7: for all `factor` and `n`, `getMultiplier(factor)(n)` is the 64-bit machine
product of `factor` and `n` (the value in `[-2^63, 2^63)` congruent to `factor * n`
modulo `2^64`); in particular `getMultiplier(2)(5) = 10`. -/
theorem getMultiplier_apply :
    (∀ factor n : Int, getMultiplier factor n = wrapInt (factor * n) ∧
        (getMultiplier factor n - factor * n) % 18446744073709551616 = 0 ∧
        -9223372036854775808 ≤ getMultiplier factor n ∧
        getMultiplier factor n < 9223372036854775808) ∧
      getMultiplier 2 5 = 10 := by
  refine ⟨fun factor n => ⟨rfl, ?_, ?_, ?_⟩, by decide⟩
  · exact wrapInt_congr (factor * n)
  · exact wrapInt_lower (factor * n)
  · exact wrapInt_upper (factor * n)

/-- C10: `compose(curriedAdd(5), getMultiplier(2))(10) = 30`, through
`add5(10) = 15` and `multiplyBy2(15) = 30`. -/
theorem compose_add5_multiplyBy2 :
    compose (curriedAdd 5) (getMultiplier 2) 10 = 30 ∧
      curriedAdd 5 10 = 15 ∧ getMultiplier 2 15 = 30 := by
  decide

/-! ## Sum of the squares of the even numbers -/

/-- C6: on `[1,2,3,4,5,6,7,8,9]`, the slice `main` passes, `functionalStyle` and
`imperaticeStyle` both return `120`. -/
theorem styles_on_one_to_nine :
    collection = Slice.alloc [1, 2, 3, 4, 5, 6, 7, 8, 9] ∧
      functionalStyle collection = some 120 ∧ imperaticeStyle collection = 120 := by
  decide

/-- C9: for every slice of ints, `imperaticeStyle` and `functionalStyle` each return
the sum of `n * n` over the even elements `n` (negative ones included), reduced to
the 64-bit machine int. -/
theorem styles_eq_sum_of_squares_of_evens (numbers : Slice Int) :
    imperaticeStyle numbers = wrapInt (sumSquaresOfEvens numbers.toList) ∧
      functionalStyle numbers = some (wrapInt (sumSquaresOfEvens numbers.toList)) :=
  ⟨imperaticeStyle_eq numbers, functionalStyle_eq numbers⟩

/-! ## `Filter` when nothing matches -/

/-- C8 as stated fails: on an allocated empty slice, and on `[1, 3, 5]` with the
predicate "is even", `Filter` returns the nil slice, not a non-nil one. -/
theorem Filter_no_match_counterexample :
    ¬ ((Filter (Slice.alloc ([] : List Int)) (fun _ => true)).isNil = false) ∧
      ¬ ((Filter (Slice.alloc [1, 3, 5]) (fun n => decide (remInt n 2 = 0))).isNil = false) := by
  decide

/-- C8 amended: `Filter` of an empty slice (nil or allocated), and `Filter` of any
slice on which the predicate is false for every element, is the nil slice, which
has length `0`. -/
theorem Filter_no_match_is_nil {T : Type} :
    (∀ p : T → Bool, Filter (Slice.nil : Slice T) p = Slice.nil) ∧
      (∀ p : T → Bool, Filter (Slice.alloc ([] : List T)) p = Slice.nil) ∧
      ∀ (xs : Slice T) (p : T → Bool), (∀ x ∈ xs.toList, p x = false) →
        Filter xs p = Slice.nil ∧ (Filter xs p).isNil = true ∧ (Filter xs p).len = 0 := by
  refine ⟨fun _ => rfl, fun _ => rfl, fun xs p h => ?_⟩
  have hnil : Filter xs p = Slice.nil := Filter_loop_none p xs.toList h Slice.nil
  rw [hnil]
  exact ⟨rfl, rfl, rfl⟩

/-- Instance of the amended C8 at `xs = [1, 3, 5]`, `p = is even`. -/
theorem Filter_no_match_is_nil_witness :
    (∀ x ∈ (Slice.alloc [1, 3, 5] : Slice Int).toList, decide (remInt x 2 = 0) = false) ∧
      Filter (Slice.alloc [1, 3, 5]) (fun n => decide (remInt n 2 = 0)) = Slice.nil ∧
      (Filter (Slice.alloc [1, 3, 5]) (fun n => decide (remInt n 2 = 0))).isNil = true ∧
      (Filter (Slice.alloc [1, 3, 5]) (fun n => decide (remInt n 2 = 0))).len = 0 :=
  ⟨by decide,
   Filter_no_match_is_nil.2.2 (Slice.alloc [1, 3, 5]) (fun n => decide (remInt n 2 = 0))
     (by decide)⟩

/-! ## The two styles agree -/

/-- C13: for every slice of ints (empty, with negative numbers, with squares or
sums that overflow), `functionalStyle` returns, and returns what
`imperaticeStyle` returns. -/
theorem functionalStyle_eq_imperaticeStyle (numbers : Slice Int) :
    functionalStyle numbers = some (imperaticeStyle numbers) := by
  rw [functionalStyle_eq, imperaticeStyle_eq]

/-! ## Order of `compose` -/

/-- C14: the order of `compose` matters: with `f = curriedAdd(5)`,
`g = getMultiplier(2)`, `x = 10`, `compose(f, g)(x) = 30` and
`compose(g, f)(x) = 25`; so some `f`, `g`, `x` tell the two orders apart. -/
theorem compose_order_matters :
    compose (curriedAdd 5) (getMultiplier 2) 10 = 30 ∧
      compose (getMultiplier 2) (curriedAdd 5) 10 = 25 ∧
      ∃ (f g : Int → Int) (x : Int), compose f g x ≠ compose g f x := by
  refine ⟨by decide, by decide, curriedAdd 5, getMultiplier 2, 10, by decide⟩

/-! ## `Filter` keeps every match -/

/-- C15: `Filter(xs, p)` holds exactly the elements of `xs` that satisfy `p`, in
their order in `xs`; an element that satisfies `p` occurs in it as often as in
`xs`; and when `p` holds for every element, `Filter(xs, p)` has the elements
of `xs`. -/
theorem Filter_keeps_every_match {T : Type} [DecidableEq T] (xs : Slice T) (p : T → Bool) :
    (Filter xs p).toList = xs.toList.filter p ∧
      (∀ x : T, p x = true → (Filter xs p).toList.count x = xs.toList.count x) ∧
      ((∀ x ∈ xs.toList, p x = true) → (Filter xs p).toList = xs.toList) := by
  rw [Filter_toList]
  refine ⟨rfl, fun x hx => List.count_filter hx, fun h => ?_⟩
  exact List.filter_eq_self.mpr h

/-- Instance of C15 at `xs = [2, 1, 2, 4]`, `p = is even`, element `2`, and at
`xs = [2, 4]` where every element is even. -/
theorem Filter_keeps_every_match_witness :
    decide (remInt 2 2 = 0) = true ∧
      (Filter (Slice.alloc [2, 1, 2, 4]) (fun n => decide (remInt n 2 = 0))).toList.count 2 = 2 ∧
      (∀ x ∈ (Slice.alloc [2, 4] : Slice Int).toList, decide (remInt x 2 = 0) = true) ∧
      (Filter (Slice.alloc [2, 4]) (fun n => decide (remInt n 2 = 0))).toList = [2, 4] :=
  ⟨by decide,
   (Filter_keeps_every_match (Slice.alloc [2, 1, 2, 4])
      (fun n => decide (remInt n 2 = 0))).2.1 2 (by decide),
   by decide,
   (Filter_keeps_every_match (Slice.alloc [2, 4])
      (fun n => decide (remInt n 2 = 0))).2.2 (by decide)⟩

/-! ## Algebra of `Reduce` and `Map` -/

/-- C17: `Reduce` splits over concatenation: when the elements of `s` are those of
`xs` followed by those of `ys`, `Reduce(s, z, c) = Reduce(ys, Reduce(xs, z, c), c)`. -/
theorem Reduce_concat {A B : Type} (s xs ys : Slice A) (z : B) (c : B → A → B)
    (h : s.toList = xs.toList ++ ys.toList) :
    Reduce s z c = Reduce ys (Reduce xs z c) c := by
  simp only [Reduce, Reduce_loop_eq_foldl, h, List.foldl_append]

/-- Instance of C17 at `xs = [1, 2]`, `ys = [3, 4]`, `z = 10`, `c = add`. -/
theorem Reduce_concat_witness :
    Reduce (Slice.alloc [1, 2, 3, 4]) 10 add
        = Reduce (Slice.alloc [3, 4]) (Reduce (Slice.alloc [1, 2]) 10 add) add ∧
      Reduce (Slice.alloc [1, 2, 3, 4]) 10 add = 20 :=
  ⟨Reduce_concat (Slice.alloc [1, 2, 3, 4]) (Slice.alloc [1, 2]) (Slice.alloc [3, 4]) 10 add rfl,
   by decide⟩

/-- C18: `Map` fuses with composition: `Map(Map(xs, f), g)` returns what
`Map(xs, x -> g(f(x)))` returns; for functions on `int` the fused transform is
`compose(f, g)`. -/
theorem Map_fusion :
    (∀ (A B C : Type) [Inhabited B] [Inhabited C] (xs : Slice A) (f : A → B) (g : B → C),
        (Map xs f).bind (fun ys => Map ys g) = Map xs (fun x => g (f x)) ∧
        ∃ r : Slice C, Map xs (fun x => g (f x)) = some r) ∧
      ∀ (xs : Slice Int) (f g : Int → Int),
        (Map xs f).bind (fun ys => Map ys g) = Map xs (compose f g) := by
  refine ⟨fun A B C _ _ xs f g => ⟨?_, _, Map_eq xs _⟩, fun xs f g => ?_⟩
  · simp only [Map_eq, Option.some_bind, Slice.toList_alloc, List.map_map]
    rfl
  · simp only [Map_eq, Option.some_bind, Slice.toList_alloc, List.map_map]
    rfl

/-! ## `Map` with a transform that may fail -/

/-- The loop of `Map` with a fallible transform, started as in `Map_loop_eq`:
it ends with the first failure of `f` if there is one, and otherwise with the
results of `f` stored in order; the store itself never faults. -/
theorem MapFallible_loop_eq {A B E : Type} (f : A → Except E B) (rest : List A) :
    ∀ (done junk : List B), junk.length = rest.length →
      MapFallible.loop f rest done.length (Slice.alloc (done ++ junk))
        = match firstFailure f rest with
          | some e => Except.error (Fault.transform e)
          | none => Except.ok (Slice.alloc (done ++ okValues f rest)) := by
  induction rest with
  | nil =>
    intro done junk h
    have hj : junk = [] := List.length_eq_zero.mp h
    simp [MapFallible.loop, firstFailure, okValues, hj]
  | cons item rest ih =>
    intro done junk h
    cases junk with
    | nil => simp at h
    | cons old junk =>
      have hlen : junk.length = rest.length := by simpa using h
      cases hf : f item with
      | error e => simp [MapFallible.loop, firstFailure, hf]
      | ok v =>
        have hstep := ih (done ++ [v]) junk hlen
        simp only [List.length_append, List.length_singleton] at hstep
        simp only [MapFallible.loop, firstFailure, okValues, hf, Slice.store_alloc_append, hstep]
        simp

theorem MapFallible_eq {A B E : Type} [Inhabited B] (xs : Slice A) (f : A → Except E B) :
    MapFallible xs f
      = match firstFailure f xs.toList with
        | some e => Except.error (Fault.transform e)
        | none => Except.ok (Slice.alloc (okValues f xs.toList)) := by
  have h := MapFallible_loop_eq f xs.toList [] (List.replicate xs.len default)
    (by simp [Slice.len])
  simpa [MapFallible, Slice.make] using h

theorem firstFailure_eq_none_iff {A B E : Type} (f : A → Except E B) (l : List A) :
    firstFailure f l = none ↔ ∀ x ∈ l, ∃ v, f x = Except.ok v := by
  induction l with
  | nil => simp [firstFailure]
  | cons item rest ih =>
    cases hf : f item with
    | error e =>
      simp only [firstFailure, hf, List.mem_cons, forall_eq_or_imp]
      constructor
      · intro h; cases h
      · rintro ⟨⟨v, hv⟩, _⟩; cases hv
    | ok v =>
      simp only [firstFailure, hf, List.mem_cons, forall_eq_or_imp, ih]
      constructor
      · intro h; exact ⟨⟨v, rfl⟩, h⟩
      · intro h; exact h.2

theorem firstFailure_append_of_ok {A B E : Type} (f : A → Except E B) (pre : List A)
    (hpre : ∀ y ∈ pre, ∃ v, f y = Except.ok v) (l : List A) :
    firstFailure f (pre ++ l) = firstFailure f l := by
  induction pre with
  | nil => rfl
  | cons item rest ih =>
    obtain ⟨v, hv⟩ := hpre item (List.mem_cons_self _ _)
    have hrest : ∀ y ∈ rest, ∃ v, f y = Except.ok v :=
      fun y hy => hpre y (List.mem_cons_of_mem _ hy)
    have hstep : firstFailure f (item :: (rest ++ l)) = firstFailure f (rest ++ l) := by
      simp only [firstFailure, hv]
    exact hstep.trans (ih hrest)

theorem okValues_length_of_ok {A B E : Type} (f : A → Except E B) (l : List A)
    (h : firstFailure f l = none) : (okValues f l).length = l.length := by
  induction l with
  | nil => rfl
  | cons item rest ih =>
    cases hf : f item with
    | error e => simp [firstFailure, hf] at h
    | ok v =>
      simp only [firstFailure, hf] at h
      simp [okValues, hf, ih h]

theorem firstFailure_of_total {A B E : Type} (f : A → B) (l : List A) :
    firstFailure (fun x => (Except.ok (f x) : Except E B)) l = none := by
  induction l with
  | nil => rfl
  | cons item rest ih => simpa only [firstFailure] using ih

theorem okValues_of_total {A B E : Type} (f : A → B) (l : List A) :
    okValues (fun x => (Except.ok (f x) : Except E B)) l = l.map f := by
  induction l with
  | nil => rfl
  | cons item rest ih => simp only [okValues, ih, List.map_cons]

/-- On a transform that never fails, `Map` with a fallible transform returns what
`Map` returns. -/
theorem MapFallible_of_total {A B E : Type} [Inhabited B] (xs : Slice A) (f : A → B) :
    MapFallible xs (fun x => (Except.ok (f x) : Except E B))
      = Except.ok (Slice.alloc (xs.toList.map f)) := by
  rw [MapFallible_eq, firstFailure_of_total, okValues_of_total]

/-- C12: with a transform that may fail, `Map(xs, f)` fails if and only if `f`
fails on some element of `xs`; the failure is the one `f` raises on the first
such element, unchanged; and when `f` succeeds on every element `Map` returns
(a slice as long as `xs`). -/
theorem MapFallible_fails_iff {A B E : Type} [Inhabited B] (xs : Slice A)
    (f : A → Except E B) :
    ((∃ e, MapFallible xs f = Except.error e) ↔ ∃ x ∈ xs.toList, ∃ e, f x = Except.error e) ∧
      (∀ (pre : List A) (x : A) (post : List A) (e : E),
        xs.toList = pre ++ x :: post → (∀ y ∈ pre, ∃ v, f y = Except.ok v) →
        f x = Except.error e → MapFallible xs f = Except.error (Fault.transform e)) ∧
      ((∀ x ∈ xs.toList, ∃ v, f x = Except.ok v) →
        ∃ r : Slice B, MapFallible xs f = Except.ok r ∧ r.len = xs.len) := by
  have hok : (∀ x ∈ xs.toList, ∃ v, f x = Except.ok v) →
      ∃ r : Slice B, MapFallible xs f = Except.ok r ∧ r.len = xs.len := by
    intro h
    have hnone := (firstFailure_eq_none_iff f xs.toList).mpr h
    refine ⟨Slice.alloc (okValues f xs.toList), ?_, ?_⟩
    · rw [MapFallible_eq, hnone]
    · rw [Slice.len_alloc, okValues_length_of_ok f xs.toList hnone]; rfl
  refine ⟨⟨?_, ?_⟩, ?_, hok⟩
  · rintro ⟨e, he⟩
    by_contra hno
    have hall : ∀ x ∈ xs.toList, ∃ v, f x = Except.ok v := by
      intro x hx
      cases hf : f x with
      | error e1 => exact absurd ⟨x, hx, e1, hf⟩ hno
      | ok v => exact ⟨v, rfl⟩
    obtain ⟨r, hr, _⟩ := hok hall
    rw [hr] at he
    cases he
  · rintro ⟨x, hx, e, he⟩
    cases hff : firstFailure f xs.toList with
    | none =>
      obtain ⟨v, hv⟩ := (firstFailure_eq_none_iff f xs.toList).mp hff x hx
      rw [hv] at he
      cases he
    | some e1 => exact ⟨Fault.transform e1, by rw [MapFallible_eq, hff]⟩
  · intro pre x post e hsplit hpre hx
    rw [MapFallible_eq, hsplit, firstFailure_append_of_ok f pre hpre]
    simp [firstFailure, hx]

/-- Instance of C12 at `xs = [1, 2, 0, 4, 0]` with a transform that fails on `0`
with the failure `7`: `Map` fails with that failure, raised at the first `0`. -/
theorem MapFallible_fails_iff_witness :
    MapFallible (Slice.alloc [1, 2, 0, 4, 0])
        (fun n : Nat => if n = 0 then (Except.error 7 : Except Nat Nat) else Except.ok (12 / n))
      = Except.error (Fault.transform 7) :=
  (MapFallible_fails_iff (Slice.alloc [1, 2, 0, 4, 0])
      (fun n : Nat => if n = 0 then (Except.error 7 : Except Nat Nat) else Except.ok (12 / n))).2.1
    [1, 2] 0 [4, 0] 7 rfl
    (by
      intro y hy
      simp only [List.mem_cons, List.mem_singleton, List.not_mem_nil, or_false] at hy
      rcases hy with rfl | rfl
      · exact ⟨12, rfl⟩
      · exact ⟨6, rfl⟩)
    rfl

/-! ## The closure of `getMultiplier` -/

theorem Store.read_declare (σ : Store) (v : Int) :
    (σ.declare v).1.read (σ.declare v).2 = some v := by
  simp [Store.declare, Store.read]

/-- Assigning to, or declaring after, a variable that already exists leaves the
other existing variables as they are. -/
theorem Store.read_assign_of_ne (σ : Store) (x y : Nat) (v : Int) (h : x ≠ y) :
    (σ.assign x v).read y = σ.read y := by
  simp [Store.assign, Store.read, List.getElem?_set, h]

theorem Store.read_assign_self (σ : Store) (x : Nat) (v : Int) (h : x < σ.cells.length) :
    (σ.assign x v).read x = some v := by
  simp [Store.assign, Store.read, List.getElem?_set, h]

theorem Store.read_declare_of_lt (σ : Store) (v : Int) (y : Nat) (h : y < σ.cells.length) :
    (σ.declare v).1.read y = σ.read y := by
  simp [Store.declare, Store.read, List.getElem?_append_left h]

theorem Store.lt_of_read_eq_some (σ : Store) (x : Nat) (v : Int) (h : σ.read x = some v) :
    x < σ.cells.length := by
  unfold Store.read at h
  exact (List.getElem?_eq_some_iff.mp h).1

/-- C11: the function returned by `getMultiplier(factor)` keeps the value `factor`
had at the call: after the caller assigns a new value to the variable that
supplied it, the function still maps every `n` to `factor * n`; and of two
multipliers made one after the other each keeps its own factor. -/
theorem getMultiplier_closes_over_value :
    (∀ (σ : Store) (x : Nat) (factor new : Int), σ.read x = some factor →
        ((getMultiplier.call σ factor).1.assign x new).read x = some new ∧
        ∀ n : Int, (getMultiplier.call σ factor).2.apply
            ((getMultiplier.call σ factor).1.assign x new) n = some (getMultiplier factor n)) ∧
      ∀ (σ : Store) (factor1 factor2 n : Int),
        (getMultiplier.call σ factor1).2.apply
            (getMultiplier.call (getMultiplier.call σ factor1).1 factor2).1 n
          = some (getMultiplier factor1 n) ∧
        (getMultiplier.call (getMultiplier.call σ factor1).1 factor2).2.apply
            (getMultiplier.call (getMultiplier.call σ factor1).1 factor2).1 n
          = some (getMultiplier factor2 n) := by
  refine ⟨fun σ x factor new hx => ?_, fun σ factor1 factor2 n => ⟨?_, ?_⟩⟩
  · have hlt : x < σ.cells.length := Store.lt_of_read_eq_some σ x factor hx
    have hlt1 : x < (σ.declare factor).1.cells.length := by
      simp [Store.declare]; omega
    refine ⟨Store.read_assign_self _ x new hlt1, fun n => ?_⟩
    have hne : x ≠ (σ.declare factor).2 := by
      simp only [Store.declare]; omega
    simp only [Multiplier.apply, getMultiplier.call, Store.read_assign_of_ne _ _ _ _ hne,
      Store.read_declare, getMultiplier]
  · have hlt : (σ.declare factor1).2 < (σ.declare factor1).1.cells.length := by
      simp [Store.declare]
    simp only [Multiplier.apply, getMultiplier.call, Store.read_declare_of_lt _ _ _ hlt,
      Store.read_declare, getMultiplier]
  · simp only [Multiplier.apply, getMultiplier.call, Store.read_declare, getMultiplier]

/-- Instance of C11: the caller's variable holds `2`, a multiplier is made from it,
the variable is set to `3`; the multiplier still maps `5` to `10`. -/
theorem getMultiplier_closes_over_value_witness :
    (Store.mk [2]).read 0 = some 2 ∧
      ((getMultiplier.call (Store.mk [2]) 2).1.assign 0 3).read 0 = some 3 ∧
      (getMultiplier.call (Store.mk [2]) 2).2.apply
        ((getMultiplier.call (Store.mk [2]) 2).1.assign 0 3) 5 = some 10 :=
  ⟨rfl,
   (getMultiplier_closes_over_value.1 (Store.mk [2]) 0 2 3 rfl).1,
   (getMultiplier_closes_over_value.1 (Store.mk [2]) 0 2 3 rfl).2 5⟩

/-! ## The trace of `measureTime` -/

/-- C16: `measureTime(f)` adds to the trace, in this order: one clock reading, the
actions of one run of `f` (entered at the clock of the call), one reading of the
elapsed time, and one `Work took:` line, which is therefore after everything `f`
printed; with the callback of `main` that is four actions around one run. -/
theorem measureTime_trace :
    (∀ (f : Callback) (w : World), ∃ duration : Nat,
        (measureTime f w).trace
          = w.trace ++ [Effect.timeNow] ++ f.effects w.clock
              ++ [Effect.timeSince, Effect.printf "Work took: %v\n" duration]) ∧
      ∀ (overhead : Nat) (w : World),
        (measureTime (mainCallback overhead) w).trace
          = w.trace ++ [Effect.timeNow,
              Effect.println "Do business logic with High-Order Function",
              Effect.sleep 1000000000,
              Effect.timeSince,
              Effect.printf "Work took: %v\n" (1000000000 + overhead)] := by
  refine ⟨fun f w => ⟨w.clock + f.elapsed w.clock - w.clock, ?_⟩, fun overhead w => ?_⟩
  · simp [measureTime, Callback.invoke]
  · simp [measureTime, Callback.invoke, mainCallback]

end Bootcamp
